import Mathlib

/-!
The query gate and the result formatter of postgres-mcp-server.

A shallow embedding of `main.go`: the two classifier helpers `hasPrefix` and
`hasAnyPrefix`, the executor `runExec`, and the three registered tool handlers
`execute_query`, `ddl_query` and `modify_query`.

Go strings are modelled as Lean `String`s (sequences of Unicode code points; the
query arrives through JSON decoding, which yields valid UTF-8).  The database is
an external collaborator: it is a value of type `DB` that answers each call, and
every handler returns, next to its Go result, the list of calls it made.  The
rows of a result are read through gorm's `ScanRows`, modelled as that library
behaves on the `*[]interface{}` the handler passes to it.
-/

namespace PostgresMcp

/-! ## The Go standard library functions used by the classifier -/

/-- Go `unicode.IsSpace`: the Latin-1 cases of its `switch`
(`\t \n \v \f \r`, space, U+0085, U+00A0) and, beyond Latin-1, the
`White_Space` range table. -/
def unicodeIsSpace (r : Char) : Bool :=
  let n := r.toNat
  (0x09 ≤ n && n ≤ 0x0D) || n == 0x20 || n == 0x85 || n == 0xA0 ||
  n == 0x1680 || (0x2000 ≤ n && n ≤ 0x200A) || n == 0x2028 || n == 0x2029 ||
  n == 0x202F || n == 0x205F || n == 0x3000

/-- Go `unicode.ToUpper`.  For `r <= MaxASCII` the code is
`if 'a' <= r && r <= 'z' { r -= 'a' - 'A' }; return r`.  Beyond ASCII the
result is looked up in the table `unicode.CaseRanges`, which is data of the Go
toolchain and not of this program: it is the parameter `caseRanges`. -/
def unicodeToUpper (caseRanges : Char → Char) (r : Char) : Char :=
  if r.toNat ≤ 0x7F then
    if 'a'.toNat ≤ r.toNat ∧ r.toNat ≤ 'z'.toNat then
      Char.ofNat (r.toNat - ('a'.toNat - 'A'.toNat))
    else r
  else caseRanges r

/-- Go `strings.TrimSpace`: `TrimRightFunc(TrimLeftFunc(s, IsSpace), IsSpace)`,
the string without its leading and trailing white space runes. -/
def TrimSpace (s : String) : String :=
  ⟨List.rdropWhile unicodeIsSpace (List.dropWhile unicodeIsSpace s.data)⟩

/-- Go `strings.ToUpper`: every rune mapped through `unicode.ToUpper`. -/
def ToUpper (caseRanges : Char → Char) (s : String) : String :=
  ⟨s.data.map (unicodeToUpper caseRanges)⟩

/-- Go `strings.HasPrefix`:
`len(s) >= len(prefix) && s[:len(prefix)] == prefix`.  Go compares bytes; on
valid UTF-8 a byte prefix is a rune prefix, so the comparison is made on the
runes. -/
def HasPrefix (s pfx : String) : Bool :=
  decide (pfx.data.length ≤ s.data.length) && (s.data.take pfx.data.length == pfx.data)

/-! ## The classifier (`main.go`, lines 109-123) -/

/-- Source `hasPrefix`:
`strings.HasPrefix(strings.ToUpper(strings.TrimSpace(query)), prefix)`. -/
def hasPrefix (caseRanges : Char → Char) (query pfx : String) : Bool :=
  HasPrefix (ToUpper caseRanges (TrimSpace query)) pfx

/-- The `for _, prefix := range prefixes` loop of `hasAnyPrefix`, over the
already normalised query: the first matching element returns `true`, the end of
the list returns `false`. -/
def hasAnyPrefixLoop (query : String) : List String → Bool
  | [] => false
  | pfx :: rest => if HasPrefix query pfx then true else hasAnyPrefixLoop query rest

/-- Source `hasAnyPrefix`: the query is normalised once, then the loop runs. -/
def hasAnyPrefix (caseRanges : Char → Char) (query : String) (prefixes : List String) : Bool :=
  hasAnyPrefixLoop (ToUpper caseRanges (TrimSpace query)) prefixes

/-! ## The database collaborator and the tool results -/

/-- A Go `error`, identified with the text its `Error()` method returns. -/
abbrev GoError := String

/-- A value the driver delivers for one column of one row. -/
inductive Value where
  | null
  | int (n : Int)
  | bool (b : Bool)
  | str (s : String)
  | other (rendered : String)

/-- The `%v` verb of `fmt.Sprintf` on a scanned value: `<nil>` for a nil
interface, decimal digits for an integer, `true`/`false` for a boolean, the text
itself for a string; `other` carries the rendering of any other driver type. -/
def fmtV : Value → String
  | .null => "<nil>"
  | .int n => toString n
  | .bool b => if b then "true" else "false"
  | .str s => s
  | .other rendered => rendered

/-- What a `*sql.Rows` answers: `columns` is `Columns()`; `data` are the rows
`Next()` delivers, in order; `err` is `Err()` once `Next()` has returned `false`
(`none`: the rows ran out); `scanErr` is the error `Scan` reports when it is
handed a destination that is not a pointer (database/sql words it from the
index and the name of the first column). -/
structure Rows where
  columns : Except GoError (List String)
  data : List (List Value)
  err : Option GoError
  scanErr : GoError

/-- The `*gorm.DB` handle as the handlers use it: `db.Raw(q).Rows()` and
`db.Exec(q).Error`. -/
structure DB where
  raw : String → Except GoError Rows
  exec : String → Option GoError

/-- One call the handler makes on the database handle or on the rows it
returned (the calls gorm makes on the rows inside `ScanRows` are not listed). -/
inductive DbCall where
  | raw (query : String)
  | columns
  | next
  | scanRows
  | close
  | exec (query : String)
  deriving DecidableEq

/-- The query string a call carries, if it carries one. -/
def DbCall.query? : DbCall → Option String
  | .raw q => some q
  | .exec q => some q
  | _ => none

/-- Source `SQLArgs`. -/
structure SQLArgs where
  Query : String

/-- The `*mcp.ToolResponse` built by
`mcp.NewToolResponse(mcp.NewTextContent(text))`. -/
structure ToolResponse where
  text : String
  deriving DecidableEq

/-- What a handler did: the Go pair `(*mcp.ToolResponse, error)` it returned
(`.error e` is `(nil, e)`, `.ok r` is `(r, nil)`) and the database calls it
made, in order. -/
structure Outcome where
  result : Except GoError ToolResponse
  calls : List DbCall

/-! ## `runExec` (`main.go`, lines 125-131) -/

/-- Source `runExec`: one `db.Exec(query)`; its error is wrapped with
`execution failed: `, otherwise the fixed confirmation text is returned. -/
def runExec (db : DB) (query : String) : Outcome :=
  match db.exec query with
  | some err => ⟨.error ("execution failed: " ++ err), [.exec query]⟩
  | none => ⟨.ok ⟨"Query executed successfully."⟩, [.exec query]⟩

/-! ## The three handlers (`main.go`, lines 37-92) -/

/-- The inner loop `for i, col := range columns` of `execute_query`:
`output += fmt.Sprintf("%s: %v\t", col, values[i])`, with the index `i`
counted from the first argument. -/
def appendColumns (values : List Value) : Nat → List String → String → String
  | _, [], output => output
  | i, col :: rest, output =>
      appendColumns values (i + 1) rest (output ++ (col ++ ": " ++ fmtV (values.getD i .null) ++ "\t"))

/-- gorm `(*DB).AddError`: the first error is kept as it is, a later one is
joined to it with `; `. -/
def AddError (acc : Option GoError) (err : GoError) : Option GoError :=
  match acc with
  | none => some err
  | some first => some (first ++ "; " ++ err)

/-- One turn of the loop inside gorm's `Scan` for a slice of `interface{}`:
`rows.Scan` gets one destination per column, and gorm makes a destination a
pointer to the new element only when there is exactly one column.  With one
column the element receives the value of that column; with none nothing is
read; with two or more every destination is nil and `rows.Scan` fails.  The
pair is the element appended to the slice and the error, if any. -/
def scanElem (n : Nat) (scanErr : GoError) (row : List Value) : Value × Option GoError :=
  if n = 1 then (row.getD 0 .null, none)
  else if n = 0 then (.null, none)
  else (.null, some scanErr)

/-- gorm `db.ScanRows(rows, &values)` as `execute_query` calls it, with
`values` a `[]interface{}`: the slice is emptied, then the current row and every
row `Next()` still delivers are scanned, each appending one element; the errors
of the scans are added up, and at the end `rows.Err()` is added when it is not
nil.  The result is the new content of `values` and the error returned. -/
def ScanRows (columns : List String) (rows : Rows) (current : List Value)
    (rest : List (List Value)) : List Value × Option GoError :=
  let scanned := (current :: rest).foldl
    (fun (acc : List Value × Option GoError) row =>
      let r := scanElem columns.length rows.scanErr row
      (acc.1 ++ [r.1], match r.2 with
        | none => acc.2
        | some err => AddError acc.2 err))
    ([], none)
  (scanned.1, match rows.err with
    | none => scanned.2
    | some err => AddError scanned.2 err)

/-- The loop `for rows.Next()` of `execute_query`, from `var output string`.
When the first `Next()` returns `false` the loop ends with the empty output (the
source does not consult `rows.Err()`).  Otherwise `db.ScanRows(rows, &values)`
runs: its error is returned at once; on success the columns of `values` and a
newline are appended, and since `ScanRows` has read the rows to their end the
next `Next()` returns `false`.  (`values[i]` is in range there: a successful
`ScanRows` after a delivered row means at most one column and at least one
element.) -/
def rowLoop (columns : List String) (rows : Rows) : Except GoError String × List DbCall :=
  match rows.data with
  | [] => (.ok "", [.next])
  | current :: rest =>
    let scanned := ScanRows columns rows current rest
    match scanned.2 with
    | some err => (.error err, [.next, .scanRows])
    | none => (.ok (appendColumns scanned.1 0 columns "" ++ "\n"), [.next, .scanRows, .next])

/-- Source handler `execute_query`. -/
def execute_query (caseRanges : Char → Char) (db : DB) (args : SQLArgs) : Outcome :=
  if !hasPrefix caseRanges args.Query "SELECT" then
    ⟨.error "only SELECT queries are allowed", []⟩
  else
    match db.raw args.Query with
    | .error err => ⟨.error ("query failed: " ++ err), [.raw args.Query]⟩
    | .ok rows =>
      match rows.columns with
      | .error err => ⟨.error err, [.raw args.Query, .columns, .close]⟩
      | .ok columns =>
        let r := rowLoop columns rows
        ⟨r.1.map ToolResponse.mk, [.raw args.Query, .columns] ++ r.2 ++ [.close]⟩

/-- The `ddlPrefixes` slice of `ddl_query`. -/
def ddlPrefixes : List String := ["CREATE", "DROP", "ALTER"]

/-- The `dmlPrefixes` slice of `modify_query`. -/
def dmlPrefixes : List String := ["INSERT", "UPDATE", "DELETE"]

/-- Source handler `ddl_query`. -/
def ddl_query (caseRanges : Char → Char) (db : DB) (args : SQLArgs) : Outcome :=
  if !hasAnyPrefix caseRanges args.Query ddlPrefixes then
    ⟨.error "only CREATE, DROP, or ALTER queries are allowed", []⟩
  else runExec db args.Query

/-- Source handler `modify_query`. -/
def modify_query (caseRanges : Char → Char) (db : DB) (args : SQLArgs) : Outcome :=
  if !hasAnyPrefix caseRanges args.Query dmlPrefixes then
    ⟨.error "only INSERT, UPDATE, or DELETE queries are allowed", []⟩
  else runExec db args.Query

/-! ## Vocabulary of the specification -/

/-- The normalised query of the specification: white space trimmed, then
uppercased. -/
def normalize (caseRanges : Char → Char) (query : String) : String :=
  ToUpper caseRanges (TrimSpace query)

/-- The string `s` starts with `p`. -/
def StartsWith (s p : String) : Prop := p.data <+: s.data

/-- The tabular text of the specification: for each row, in order, the tokens
`<column>: <value>` followed by a tab, one per column, then a newline. -/
def tabularText (columns : List String) (rows : List (List Value)) : String :=
  String.join (rows.map fun row =>
    String.join (List.zipWith (fun col v => col ++ ": " ++ fmtV v ++ "\t") columns row) ++ "\n")

/-- A database whose every entry point is answered by the given rows and whose
`Exec` reports `execErr`. -/
def stubDB (rows : Except GoError Rows) (execErr : Option GoError) : DB :=
  ⟨fun _ => rows, fun _ => execErr⟩

/-- A database that answers only the text `expected`, with the given rows and
a successful `Exec`; any other text is answered by an error. -/
def exactDB (expected : String) (rows : Rows) : DB :=
  ⟨fun q => if q = expected then .ok rows else .error "unexpected query text",
   fun q => if q = expected then none else some "unexpected query text"⟩

/-- The three tools the server registers. -/
inductive Tool where
  | execute_query
  | ddl_query
  | modify_query
  deriving DecidableEq

/-- The handler `server.RegisterTool` binds to each tool name. -/
def Tool.handler : Tool → (Char → Char) → DB → SQLArgs → Outcome
  | .execute_query => PostgresMcp.execute_query
  | .ddl_query => PostgresMcp.ddl_query
  | .modify_query => PostgresMcp.modify_query

/-- The allowed keywords of each operation, as the specification tabulates
them. -/
def Tool.allowed : Tool → List String
  | .execute_query => ["SELECT"]
  | .ddl_query => ["CREATE", "DROP", "ALTER"]
  | .modify_query => ["INSERT", "UPDATE", "DELETE"]

/-- The call through which an operation hands a query to the database: `Raw`
for the read operation, `Exec` for the other two. -/
def Tool.entry : Tool → String → DbCall
  | .execute_query, q => .raw q
  | .ddl_query, q => .exec q
  | .modify_query, q => .exec q

/-- The normalised form of `query` starts with one of the operation's allowed
keywords. -/
def Tool.Allows (t : Tool) (caseRanges : Char → Char) (query : String) : Prop :=
  ∃ p ∈ t.allowed, StartsWith (normalize caseRanges query) p

/-- The text `msg` contains the text `word`. -/
def Contains (msg word : String) : Prop := word.data <:+: msg.data

/-- The runes `a` and `b` are the same, or the same letter in two cases:
neither is white space and Go gives both the same uppercase form. -/
def SameUpToCase (caseRanges : Char → Char) (a b : Char) : Prop :=
  a = b ∨ (unicodeIsSpace a = false ∧ unicodeIsSpace b = false ∧
    unicodeToUpper caseRanges a = unicodeToUpper caseRanges b)

/-- The text `q'` differs from `q` only in the case of its letters: both have
the same length and, position by position, runes that are `SameUpToCase`. -/
def DiffersOnlyInCase (caseRanges : Char → Char) (q q' : String) : Prop :=
  List.Forall₂ (SameUpToCase caseRanges) q.data q'.data

/-- A white space string: every rune of `w` is white space for Go. -/
def IsWhiteSpace (w : String) : Prop := ∀ c ∈ w.data, unicodeIsSpace c = true

instance (caseRanges : Char → Char) (a b : Char) : Decidable (SameUpToCase caseRanges a b) :=
  inferInstanceAs (Decidable (a = b ∨ (unicodeIsSpace a = false ∧ unicodeIsSpace b = false ∧
    unicodeToUpper caseRanges a = unicodeToUpper caseRanges b)))

instance (caseRanges : Char → Char) (q q' : String) :
    Decidable (DiffersOnlyInCase caseRanges q q') :=
  inferInstanceAs (Decidable (List.Forall₂ (SameUpToCase caseRanges) q.data q'.data))

instance (w : String) : Decidable (IsWhiteSpace w) :=
  inferInstanceAs (Decidable (∀ c ∈ w.data, unicodeIsSpace c = true))

instance (s p : String) : Decidable (StartsWith s p) :=
  inferInstanceAs (Decidable (p.data <+: s.data))

instance (t : Tool) (caseRanges : Char → Char) (query : String) :
    Decidable (t.Allows caseRanges query) :=
  inferInstanceAs (Decidable (∃ p ∈ t.allowed, StartsWith (normalize caseRanges query) p))

instance (msg word : String) : Decidable (Contains msg word) :=
  inferInstanceAs (Decidable (word.data <:+: msg.data))

/-! ## Theorems -/

theorem HasPrefix_iff (s p : String) : HasPrefix s p = true ↔ StartsWith s p := by
  unfold HasPrefix StartsWith
  rw [List.prefix_iff_eq_take]
  constructor
  · intro h
    simp only [Bool.and_eq_true, decide_eq_true_eq, beq_iff_eq] at h
    exact h.2.symm
  · intro h
    have hlen : p.data.length ≤ s.data.length := by
      have := congrArg List.length h
      rw [List.length_take] at this
      omega
    simp only [Bool.and_eq_true, decide_eq_true_eq, beq_iff_eq]
    exact ⟨hlen, h.symm⟩

theorem hasAnyPrefixLoop_iff (s : String) (ps : List String) :
    hasAnyPrefixLoop s ps = true ↔ ∃ p ∈ ps, StartsWith s p := by
  induction ps with
  | nil => simp [hasAnyPrefixLoop]
  | cons p rest ih =>
    cases h : HasPrefix s p with
    | true =>
      have hp : StartsWith s p := (HasPrefix_iff s p).1 h
      simp only [hasAnyPrefixLoop, h, if_true, true_iff]
      exact ⟨p, List.mem_cons_self _ _, hp⟩
    | false =>
      have hn : ¬ StartsWith s p := fun hp => by
        have := (HasPrefix_iff s p).2 hp
        rw [h] at this
        exact Bool.noConfusion this
      simp only [hasAnyPrefixLoop, h, Bool.false_eq_true, if_false, ih]
      constructor
      · rintro ⟨x, hx, hs⟩
        exact ⟨x, List.mem_cons_of_mem _ hx, hs⟩
      · rintro ⟨x, hx, hs⟩
        rcases List.mem_cons.1 hx with hxp | hxr
        · subst hxp
          exact absurd hs hn
        · exact ⟨x, hxr, hs⟩

theorem hasPrefix_iff (tbl : Char → Char) (q p : String) :
    hasPrefix tbl q p = true ↔ StartsWith (normalize tbl q) p :=
  HasPrefix_iff _ p

theorem hasAnyPrefix_iff (tbl : Char → Char) (q : String) (ps : List String) :
    hasAnyPrefix tbl q ps = true ↔ ∃ p ∈ ps, StartsWith (normalize tbl q) p :=
  hasAnyPrefixLoop_iff _ ps

theorem runExec_calls (db : DB) (q : String) : (runExec db q).calls = [.exec q] := by
  unfold runExec
  cases db.exec q <;> rfl

theorem rowLoop_calls_no_query (cols : List String) (rows : Rows) :
    (rowLoop cols rows).2.filter (fun c => c.query?.isSome) = [] := by
  unfold rowLoop
  cases rows.data with
  | nil => rfl
  | cons cur rest =>
    simp only
    cases (ScanRows cols rows cur rest).2 <;> rfl

theorem execute_query_reject (tbl : Char → Char) (db : DB) (q : String)
    (h : hasPrefix tbl q "SELECT" = false) :
    execute_query tbl db ⟨q⟩ = ⟨.error "only SELECT queries are allowed", []⟩ := by
  simp [execute_query, h]

theorem ddl_query_reject (tbl : Char → Char) (db : DB) (q : String)
    (h : hasAnyPrefix tbl q ddlPrefixes = false) :
    ddl_query tbl db ⟨q⟩ = ⟨.error "only CREATE, DROP, or ALTER queries are allowed", []⟩ := by
  simp [ddl_query, h]

theorem modify_query_reject (tbl : Char → Char) (db : DB) (q : String)
    (h : hasAnyPrefix tbl q dmlPrefixes = false) :
    modify_query tbl db ⟨q⟩ = ⟨.error "only INSERT, UPDATE, or DELETE queries are allowed", []⟩ := by
  simp [modify_query, h]

theorem execute_query_accept_calls (tbl : Char → Char) (db : DB) (q : String)
    (h : hasPrefix tbl q "SELECT" = true) :
    (execute_query tbl db ⟨q⟩).calls.filter (fun c => c.query?.isSome) = [.raw q] ∧
    (execute_query tbl db ⟨q⟩).calls.head? = some (.raw q) := by
  unfold execute_query
  simp only [h, Bool.not_true, Bool.false_eq_true, if_false]
  rcases hr : db.raw q with e | rows
  · exact ⟨rfl, rfl⟩
  · rcases hc : rows.columns with e | cols
    · simp only [hc]
      exact ⟨rfl, rfl⟩
    · simp only [hc]
      refine ⟨?_, rfl⟩
      simp only [List.filter_append, rowLoop_calls_no_query]
      rfl

theorem ddl_query_accept (tbl : Char → Char) (db : DB) (q : String)
    (h : hasAnyPrefix tbl q ddlPrefixes = true) : ddl_query tbl db ⟨q⟩ = runExec db q := by
  simp [ddl_query, h]

theorem modify_query_accept (tbl : Char → Char) (db : DB) (q : String)
    (h : hasAnyPrefix tbl q dmlPrefixes = true) : modify_query tbl db ⟨q⟩ = runExec db q := by
  simp [modify_query, h]

/-- The check each handler makes is the specification's `Allows`. -/
theorem allows_iff (t : Tool) (tbl : Char → Char) (q : String) :
    t.Allows tbl q ↔
      (match t with
        | .execute_query => hasPrefix tbl q "SELECT" = true
        | .ddl_query => hasAnyPrefix tbl q ddlPrefixes = true
        | .modify_query => hasAnyPrefix tbl q dmlPrefixes = true) := by
  cases t
  · simp only [hasPrefix_iff]
    simp [Tool.Allows, Tool.allowed]
  · simp only [hasAnyPrefix_iff]
    rfl
  · simp only [hasAnyPrefix_iff]
    rfl

theorem handler_of_not_allows (t : Tool) (tbl : Char → Char) (db : DB) (q : String)
    (h : ¬ t.Allows tbl q) : ∃ e, t.handler tbl db ⟨q⟩ = ⟨.error e, []⟩ := by
  rw [allows_iff] at h
  cases t
  · exact ⟨_, execute_query_reject tbl db q (by simpa using h)⟩
  · exact ⟨_, ddl_query_reject tbl db q (by simpa using h)⟩
  · exact ⟨_, modify_query_reject tbl db q (by simpa using h)⟩

theorem handler_calls_of_allows (t : Tool) (tbl : Char → Char) (db : DB) (q : String)
    (h : t.Allows tbl q) :
    (t.handler tbl db ⟨q⟩).calls.filter (fun c => c.query?.isSome) = [t.entry q] := by
  rw [allows_iff] at h
  cases t
  · exact (execute_query_accept_calls tbl db q h).1
  · show (ddl_query tbl db ⟨q⟩).calls.filter _ = _
    rw [ddl_query_accept tbl db q h, runExec_calls]
    rfl
  · show (modify_query tbl db ⟨q⟩).calls.filter _ = _
    rw [modify_query_accept tbl db q h, runExec_calls]
    rfl

theorem handler_reaches_database_iff (t : Tool) (tbl : Char → Char) (db : DB) (q : String) :
    (t.handler tbl db ⟨q⟩).calls ≠ [] ↔ t.Allows tbl q := by
  constructor
  · intro hne
    by_contra hno
    obtain ⟨e, he⟩ := handler_of_not_allows t tbl db q hno
    rw [he] at hne
    exact hne rfl
  · intro ha hnil
    have := handler_calls_of_allows t tbl db q ha
    rw [hnil] at this
    exact List.noConfusion this

/-- C1: `hasAnyPrefix q ps` is true exactly when the trimmed, uppercased query
starts with a member of `ps`, and `hasPrefix q p` exactly when it starts with
`p`; the read handler goes on to the database exactly for the queries whose
normalised form starts with SELECT, the schema handler exactly for CREATE, DROP
or ALTER, the modify handler exactly for INSERT, UPDATE or DELETE. -/
theorem classifier_contract (tbl : Char → Char) (q : String) :
    (∀ ps, hasAnyPrefix tbl q ps = true ↔ ∃ p ∈ ps, StartsWith (normalize tbl q) p) ∧
    (∀ p, hasPrefix tbl q p = true ↔ StartsWith (normalize tbl q) p) ∧
    (∀ db, (execute_query tbl db ⟨q⟩).calls ≠ [] ↔ StartsWith (normalize tbl q) "SELECT") ∧
    (∀ db, (ddl_query tbl db ⟨q⟩).calls ≠ [] ↔
      (StartsWith (normalize tbl q) "CREATE" ∨ StartsWith (normalize tbl q) "DROP" ∨
        StartsWith (normalize tbl q) "ALTER")) ∧
    (∀ db, (modify_query tbl db ⟨q⟩).calls ≠ [] ↔
      (StartsWith (normalize tbl q) "INSERT" ∨ StartsWith (normalize tbl q) "UPDATE" ∨
        StartsWith (normalize tbl q) "DELETE")) := by
  refine ⟨hasAnyPrefix_iff tbl q, hasPrefix_iff tbl q, ?_, ?_, ?_⟩
  · intro db
    rw [show (execute_query tbl db ⟨q⟩) = Tool.execute_query.handler tbl db ⟨q⟩ from rfl,
      handler_reaches_database_iff]
    simp [Tool.Allows, Tool.allowed]
  · intro db
    rw [show (ddl_query tbl db ⟨q⟩) = Tool.ddl_query.handler tbl db ⟨q⟩ from rfl,
      handler_reaches_database_iff]
    simp [Tool.Allows, Tool.allowed]
  · intro db
    rw [show (modify_query tbl db ⟨q⟩) = Tool.modify_query.handler tbl db ⟨q⟩ from rfl,
      handler_reaches_database_iff]
    simp [Tool.Allows, Tool.allowed]

/-- C2: for each of the three operations, a query whose normalised form starts
with none of the operation's allowed keywords makes the handler return an error
and make no database call of any kind. -/
theorem rejected_query_never_reaches_database (t : Tool) (tbl : Char → Char) (db : DB)
    (q : String) (h : ¬ t.Allows tbl q) :
    (∃ e, (t.handler tbl db ⟨q⟩).result = .error e) ∧ (t.handler tbl db ⟨q⟩).calls = [] := by
  obtain ⟨e, he⟩ := handler_of_not_allows t tbl db q h
  rw [he]
  exact ⟨⟨e, rfl⟩, rfl⟩

/-- C2 at a concrete input: the modify operation on `DROP TABLE x`, against a
database that would accept anything. -/
theorem rejected_query_never_reaches_database_witness :
    ¬ Tool.modify_query.Allows id "DROP TABLE x" ∧
    ((∃ e, (Tool.modify_query.handler id (stubDB (.error "unused") none)
        ⟨"DROP TABLE x"⟩).result = .error e) ∧
      (Tool.modify_query.handler id (stubDB (.error "unused") none)
        ⟨"DROP TABLE x"⟩).calls = []) :=
  ⟨by decide, rejected_query_never_reaches_database _ _ _ _ (by decide)⟩

/-- C6: when `Exec` reports error `e`, `runExec` returns no response and the
error `execution failed: ` followed by `e` (which therefore contains `e`); when
`Exec` reports no error it returns the fixed text `Query executed successfully.`
and no error; the fixed text is returned exactly when `Exec` did not fail. -/
theorem runExec_contract (db : DB) (q : String) :
    (∀ e, db.exec q = some e →
      (runExec db q).result = .error ("execution failed: " ++ e) ∧
      Contains ("execution failed: " ++ e) e) ∧
    (db.exec q = none → (runExec db q).result = .ok ⟨"Query executed successfully."⟩) ∧
    ((runExec db q).result = .ok ⟨"Query executed successfully."⟩ ↔ db.exec q = none) := by
  refine ⟨?_, ?_, ?_⟩
  · intro e he
    refine ⟨by simp [runExec, he], ?_⟩
    exact ⟨"execution failed: ".data, [], by simp [String.data_append]⟩
  · intro hn
    simp [runExec, hn]
  · cases he : db.exec q with
    | none => simp [runExec, he]
    | some e => simp [runExec, he]

/-- C7, the claim refuted: whatever the case table and the database, the
schema handler does not stop at `CREATEX`; it always calls the database. -/
theorem createx_not_rejected :
    ¬ ∃ (tbl : Char → Char) (db : DB), (ddl_query tbl db ⟨"CREATEX"⟩).calls = [] := by
  rintro ⟨tbl, db, h⟩
  rw [ddl_query_accept tbl db "CREATEX" rfl, runExec_calls] at h
  exact List.noConfusion h

/-- C7 as amended: `CREATEX` passes the schema operation's prefix check (its
normalised form starts with CREATE) and is handed, as it is, to `Exec`. -/
theorem createx_accepted (tbl : Char → Char) (db : DB) :
    hasAnyPrefix tbl "CREATEX" ddlPrefixes = true ∧
    StartsWith (normalize tbl "CREATEX") "CREATE" ∧
    ddl_query tbl db ⟨"CREATEX"⟩ = runExec db "CREATEX" ∧
    (ddl_query tbl db ⟨"CREATEX"⟩).calls = [.exec "CREATEX"] := by
  have h : hasAnyPrefix tbl "CREATEX" ddlPrefixes = true := rfl
  refine ⟨h, ?_, ddl_query_accept tbl db _ h, ?_⟩
  · exact (hasPrefix_iff tbl "CREATEX" "CREATE").1 rfl
  · rw [ddl_query_accept tbl db _ h, runExec_calls]

theorem handler_depends_on_answer_at (t : Tool) (tbl : Char → Char) (db db' : DB) (q : String)
    (hraw : db'.raw q = db.raw q) (hexec : db'.exec q = db.exec q) :
    t.handler tbl db' ⟨q⟩ = t.handler tbl db ⟨q⟩ := by
  cases t
  · simp only [Tool.handler, execute_query, hraw]
  · simp only [Tool.handler, ddl_query, runExec, hexec]
  · simp only [Tool.handler, modify_query, runExec, hexec]

theorem execute_query_raw_error (tbl : Char → Char) (db : DB) (q : String) (e : GoError)
    (hp : hasPrefix tbl q "SELECT" = true) (hraw : db.raw q = .error e) :
    (execute_query tbl db ⟨q⟩).result = .error ("query failed: " ++ e) := by
  simp only [execute_query, hp, Bool.not_true, Bool.false_eq_true, if_false, hraw]

theorem runExec_result_of_answer (db : DB) (q : String) :
    (∀ e, db.exec q = some e → (runExec db q).result = .error ("execution failed: " ++ e)) ∧
    (db.exec q = none → (runExec db q).result = .ok ⟨"Query executed successfully."⟩) := by
  constructor
  · intro e he
    simp only [runExec, he]
  · intro he
    simp only [runExec, he]

/-- C9: for each of the three operations and every accepted query `q`, the
calls that carry a query string are exactly one, the operation's entry call
(`Raw` for the read operation, `Exec` for the other two) with `q` itself; and it
is at `q` itself that the database is asked: the outcome is the same for any two
databases that answer `q` alike, whatever they answer to other texts (the
trimmed or uppercased form among them), and the answer to `q` shows in the
result (a failing `Raw` as `query failed: ...`, a failing `Exec` as
`execution failed: ...`, a successful `Exec` as the fixed text). -/
theorem accepted_query_forwarded_verbatim_once (t : Tool) (tbl : Char → Char) (db : DB)
    (q : String) (h : t.Allows tbl q) :
    (t.handler tbl db ⟨q⟩).calls.filter (fun c => c.query?.isSome) = [t.entry q] ∧
    (∀ db' : DB, db'.raw q = db.raw q → db'.exec q = db.exec q →
      t.handler tbl db' ⟨q⟩ = t.handler tbl db ⟨q⟩) ∧
    (t = Tool.execute_query → ∀ e, db.raw q = .error e →
      (t.handler tbl db ⟨q⟩).result = .error ("query failed: " ++ e)) ∧
    (t ≠ Tool.execute_query →
      (∀ e, db.exec q = some e →
        (t.handler tbl db ⟨q⟩).result = .error ("execution failed: " ++ e)) ∧
      (db.exec q = none →
        (t.handler tbl db ⟨q⟩).result = .ok ⟨"Query executed successfully."⟩)) := by
  refine ⟨handler_calls_of_allows t tbl db q h,
    fun db' hraw hexec => handler_depends_on_answer_at t tbl db db' q hraw hexec, ?_, ?_⟩
  · intro ht e he
    subst ht
    exact execute_query_raw_error tbl db q e ((allows_iff Tool.execute_query tbl q).1 h) he
  · intro ht
    have hc := (allows_iff t tbl q).1 h
    cases t
    · exact absurd rfl ht
    · show (∀ e, _ → (ddl_query tbl db ⟨q⟩).result = _) ∧ (_ → (ddl_query tbl db ⟨q⟩).result = _)
      rw [ddl_query_accept tbl db q hc]
      exact runExec_result_of_answer db q
    · show (∀ e, _ → (modify_query tbl db ⟨q⟩).result = _) ∧
        (_ → (modify_query tbl db ⟨q⟩).result = _)
      rw [modify_query_accept tbl db q hc]
      exact runExec_result_of_answer db q

/-- C9 at a concrete input: a lower-case, padded SELECT, against a database
that answers that exact text only; the handler gets the rows, so `Raw` received
the query with its padding and its case. -/
theorem accepted_query_forwarded_verbatim_once_witness :
    Tool.execute_query.Allows id "  select * from t " ∧
    (Tool.execute_query.handler id
        (exactDB "  select * from t " ⟨.ok ["id"], [[.int 1]], none, "unused"⟩)
        ⟨"  select * from t "⟩).calls.filter (fun c => c.query?.isSome) =
      [.raw "  select * from t "] ∧
    (Tool.execute_query.handler id
        (exactDB "  select * from t " ⟨.ok ["id"], [[.int 1]], none, "unused"⟩)
        ⟨"  select * from t "⟩).result = .ok ⟨"id: 1\t\n"⟩ ∧
    (Tool.execute_query.handler id
        (exactDB "SELECT * FROM T" ⟨.ok ["id"], [[.int 1]], none, "unused"⟩)
        ⟨"  select * from t "⟩).result = .error "query failed: unexpected query text" :=
  ⟨by decide,
    (accepted_query_forwarded_verbatim_once Tool.execute_query id
      (exactDB "  select * from t " ⟨.ok ["id"], [[.int 1]], none, "unused"⟩)
      "  select * from t " (by decide)).1,
    rfl,
    (accepted_query_forwarded_verbatim_once Tool.execute_query id
      (exactDB "SELECT * FROM T" ⟨.ok ["id"], [[.int 1]], none, "unused"⟩)
      "  select * from t " (by decide)).2.2.1 rfl "unexpected query text" rfl⟩

/-- C10: two queries rejected by the same operation get one and the same
message; it contains every keyword the operation allows and no keyword of
another operation. -/
theorem rejection_message_names_allowed_keywords (t : Tool) (tbl : Char → Char)
    (db db' : DB) (q q' : String) (h : ¬ t.Allows tbl q) (h' : ¬ t.Allows tbl q') :
    ∃ msg, (t.handler tbl db ⟨q⟩).result = .error msg ∧
      (t.handler tbl db' ⟨q'⟩).result = .error msg ∧
      (∀ k ∈ t.allowed, Contains msg k) ∧
      (∀ t', t' ≠ t → ∀ k ∈ t'.allowed, ¬ Contains msg k) := by
  rw [allows_iff] at h h'
  cases t
  · refine ⟨"only SELECT queries are allowed", ?_, ?_, by decide, ?_⟩
    · exact congrArg Outcome.result (execute_query_reject tbl db q (by simpa using h))
    · exact congrArg Outcome.result (execute_query_reject tbl db' q' (by simpa using h'))
    · intro t' hne
      cases t' <;> first | exact absurd rfl hne | decide
  · refine ⟨"only CREATE, DROP, or ALTER queries are allowed", ?_, ?_, by decide, ?_⟩
    · exact congrArg Outcome.result (ddl_query_reject tbl db q (by simpa using h))
    · exact congrArg Outcome.result (ddl_query_reject tbl db' q' (by simpa using h'))
    · intro t' hne
      cases t' <;> first | exact absurd rfl hne | decide
  · refine ⟨"only INSERT, UPDATE, or DELETE queries are allowed", ?_, ?_, by decide, ?_⟩
    · exact congrArg Outcome.result (modify_query_reject tbl db q (by simpa using h))
    · exact congrArg Outcome.result (modify_query_reject tbl db' q' (by simpa using h'))
    · intro t' hne
      cases t' <;> first | exact absurd rfl hne | decide

/-- C10 at a concrete input: the schema operation rejecting two different
queries. -/
theorem rejection_message_names_allowed_keywords_witness :
    ¬ Tool.ddl_query.Allows id "SELECT 1" ∧ ¬ Tool.ddl_query.Allows id "delete from t" ∧
    ∃ msg, (Tool.ddl_query.handler id (stubDB (.error "unused") none) ⟨"SELECT 1"⟩).result
        = .error msg ∧
      (Tool.ddl_query.handler id (stubDB (.error "unused") (some "unused"))
        ⟨"delete from t"⟩).result = .error msg ∧
      (∀ k ∈ Tool.ddl_query.allowed, Contains msg k) ∧
      (∀ t', t' ≠ Tool.ddl_query → ∀ k ∈ t'.allowed, ¬ Contains msg k) :=
  ⟨by decide, by decide,
    rejection_message_names_allowed_keywords _ _ _ _ _ _ (by decide) (by decide)⟩

theorem allowed_keywords_not_nested (t t' : Tool) (hne : t ≠ t') :
    ∀ p ∈ t.allowed, ∀ p' ∈ t'.allowed, ¬ (p.data <+: p'.data ∨ p'.data <+: p.data) := by
  cases t <;> cases t' <;> first | exact absurd rfl hne | decide

theorem not_allows_of_allows (t t' : Tool) (tbl : Char → Char) (q : String) (hne : t ≠ t')
    (h : t.Allows tbl q) : ¬ t'.Allows tbl q := by
  rintro ⟨p', hp', hs'⟩
  obtain ⟨p, hp, hs⟩ := h
  exact allowed_keywords_not_nested t t' hne p hp p' hp'
    (List.prefix_or_prefix_of_prefix hs hs')

/-- C8: a query with which one operation goes on to the database is outside
the allowed set of each other operation, whose handler returns an error without
any database call. -/
theorem policies_mutually_exclusive (t t' : Tool) (tbl : Char → Char) (db db' : DB)
    (q : String) (hne : t ≠ t') (h : (t.handler tbl db ⟨q⟩).calls ≠ []) :
    ¬ t'.Allows tbl q ∧ ∃ e, t'.handler tbl db' ⟨q⟩ = ⟨.error e, []⟩ := by
  have ha : t.Allows tbl q := (handler_reaches_database_iff t tbl db q).1 h
  have hn : ¬ t'.Allows tbl q := not_allows_of_allows t t' tbl q hne ha
  exact ⟨hn, handler_of_not_allows t' tbl db' q hn⟩

/-- C8 at a concrete input: `DROP TABLE x`, which the schema operation takes
to the database, is rejected by the modify operation. -/
theorem policies_mutually_exclusive_witness :
    Tool.ddl_query ≠ Tool.modify_query ∧
    (Tool.ddl_query.handler id (stubDB (.error "unused") none) ⟨"DROP TABLE x"⟩).calls ≠ [] ∧
    (¬ Tool.modify_query.Allows id "DROP TABLE x" ∧
      ∃ e, Tool.modify_query.handler id (stubDB (.error "unused") none) ⟨"DROP TABLE x"⟩
        = ⟨.error e, []⟩) :=
  ⟨by decide, by decide,
    policies_mutually_exclusive Tool.ddl_query Tool.modify_query id
      (stubDB (.error "unused") none) (stubDB (.error "unused") none) "DROP TABLE x"
      (by decide) (by decide)⟩

/-- C3, the code at the failing input.  The two rows `(1, a)`, `(2, b)` over
the columns `(id, name)`, all delivered without error: the handler returns the
error of `ScanRows` (every destination of `rows.Scan` is nil with two columns),
not the text `id: 1\tname: a\t\nid: 2\tname: b\t\n`.  The two rows `1`, `2` over
the one column `id`: the handler returns the first row only, where the tabular
text has both. -/
theorem two_column_rows_return_scan_error :
    (∃ e, (execute_query id
        (stubDB (.ok ⟨.ok ["id", "name"], [[.int 1, .str "a"], [.int 2, .str "b"]], none,
          "sql: Scan error on column index 0, name \"id\": destination not a pointer"⟩) none)
        ⟨"SELECT id, name FROM t"⟩).result = .error e ∧
      Contains e "destination not a pointer") ∧
    tabularText ["id", "name"] [[.int 1, .str "a"], [.int 2, .str "b"]]
      = "id: 1\tname: a\t\nid: 2\tname: b\t\n" ∧
    (execute_query id
        (stubDB (.ok ⟨.ok ["id"], [[.int 1], [.int 2]], none,
          "sql: Scan error on column index 0, name \"id\": destination not a pointer"⟩) none)
        ⟨"SELECT id FROM t"⟩).result = .ok ⟨"id: 1\t\n"⟩ ∧
    tabularText ["id"] [[.int 1], [.int 2]] = "id: 1\t\nid: 2\t\n" :=
  ⟨⟨_, rfl, by decide⟩, by decide, rfl, by decide⟩

theorem execute_query_columns_error (tbl : Char → Char) (db : DB) (q : String) (rows : Rows)
    (e : GoError) (hp : hasPrefix tbl q "SELECT" = true) (hraw : db.raw q = .ok rows)
    (hcols : rows.columns = .error e) : (execute_query tbl db ⟨q⟩).result = .error e := by
  simp only [execute_query, hp, Bool.not_true, Bool.false_eq_true, if_false, hraw, hcols]

theorem execute_query_scanRows_error (tbl : Char → Char) (db : DB) (q : String) (rows : Rows)
    (cols : List String) (cur : List Value) (rest : List (List Value)) (e : GoError)
    (hp : hasPrefix tbl q "SELECT" = true) (hraw : db.raw q = .ok rows)
    (hcols : rows.columns = .ok cols) (hdata : rows.data = cur :: rest)
    (hscan : (ScanRows cols rows cur rest).2 = some e) :
    (execute_query tbl db ⟨q⟩).result = .error e := by
  simp only [execute_query, hp, Bool.not_true, Bool.false_eq_true, if_false, hraw, hcols,
    rowLoop, hdata, hscan]
  rfl

theorem AddError_isSome (acc : Option GoError) (e : GoError) : ∃ e', AddError acc e = some e' := by
  cases acc with
  | none => exact ⟨e, rfl⟩
  | some first => exact ⟨first ++ "; " ++ e, rfl⟩

theorem ScanRows_reports_rows_err (cols : List String) (rows : Rows) (cur : List Value)
    (rest : List (List Value)) (herr : rows.err ≠ none) :
    ∃ e, (ScanRows cols rows cur rest).2 = some e := by
  cases he : rows.err with
  | none => exact absurd he herr
  | some e0 =>
    simp only [ScanRows, he]
    exact AddError_isSome _ e0

/-- The failures of reading a result that the handler does report: `Columns()`
failing, `ScanRows` reporting an error, and the iteration stopping on an error
after a row was delivered (`ScanRows` reads the rows to their end and returns
`rows.Err()`). -/
theorem reported_read_failures (tbl : Char → Char) (db : DB) (q : String)
    (rows : Rows) (hq : Tool.execute_query.Allows tbl q) (hraw : db.raw q = .ok rows)
    (hfail : (∃ e, rows.columns = .error e) ∨
      (∃ cols cur rest, rows.columns = .ok cols ∧ rows.data = cur :: rest ∧
        (ScanRows cols rows cur rest).2 ≠ none) ∨
      (rows.data ≠ [] ∧ rows.err ≠ none)) :
    ∃ e, (execute_query tbl db ⟨q⟩).result = .error e := by
  have hp : hasPrefix tbl q "SELECT" = true := (allows_iff Tool.execute_query tbl q).1 hq
  rcases hfail with ⟨e, hc⟩ | ⟨cols, cur, rest, hc, hd, hs⟩ | ⟨hd, he⟩
  · exact ⟨e, execute_query_columns_error tbl db q rows e hp hraw hc⟩
  · cases hscan : (ScanRows cols rows cur rest).2 with
    | none => exact absurd hscan hs
    | some e => exact ⟨e, execute_query_scanRows_error tbl db q rows cols cur rest e hp hraw hc hd hscan⟩
  · rcases hc : rows.columns with e | cols
    · exact ⟨e, execute_query_columns_error tbl db q rows e hp hraw hc⟩
    · cases hdata : rows.data with
      | nil => exact absurd hdata hd
      | cons cur rest =>
        obtain ⟨e, hscan⟩ := ScanRows_reports_rows_err cols rows cur rest he
        exact ⟨e, execute_query_scanRows_error tbl db q rows cols cur rest e hp hraw hc hdata hscan⟩

theorem sameUpToCase_isSpace (tbl : Char → Char) (a b : Char) (h : SameUpToCase tbl a b) :
    unicodeIsSpace a = unicodeIsSpace b := by
  rcases h with h | ⟨ha, hb, _⟩
  · rw [h]
  · rw [ha, hb]

theorem sameUpToCase_toUpper (tbl : Char → Char) (a b : Char) (h : SameUpToCase tbl a b) :
    unicodeToUpper tbl a = unicodeToUpper tbl b := by
  rcases h with h | ⟨_, _, hu⟩
  · rw [h]
  · exact hu

/-- Whatever the non-ASCII table, an ASCII lower-case letter and its capital
are `SameUpToCase`. -/
theorem ascii_letter_sameUpToCase (tbl : Char → Char) (n : Nat) (hlo : 97 ≤ n) (hhi : n ≤ 122) :
    SameUpToCase tbl (Char.ofNat n) (Char.ofNat (n - 32)) := by
  interval_cases n <;> exact Or.inr ⟨rfl, rfl, rfl⟩

theorem forall₂_dropWhile_isSpace (tbl : Char → Char) (l l' : List Char)
    (h : List.Forall₂ (SameUpToCase tbl) l l') :
    List.Forall₂ (SameUpToCase tbl) (l.dropWhile unicodeIsSpace)
      (l'.dropWhile unicodeIsSpace) := by
  induction h with
  | nil => exact List.Forall₂.nil
  | @cons a b l l' hab hrest ih =>
    have hsp := sameUpToCase_isSpace tbl a b hab
    cases ha : unicodeIsSpace a with
    | true =>
      have hb : unicodeIsSpace b = true := by rw [← hsp, ha]
      simpa [List.dropWhile_cons, ha, hb] using ih
    | false =>
      have hb : unicodeIsSpace b = false := by rw [← hsp, ha]
      simpa [List.dropWhile_cons, ha, hb] using List.Forall₂.cons hab hrest

theorem forall₂_rdropWhile_isSpace (tbl : Char → Char) (l l' : List Char)
    (h : List.Forall₂ (SameUpToCase tbl) l l') :
    List.Forall₂ (SameUpToCase tbl) (l.rdropWhile unicodeIsSpace)
      (l'.rdropWhile unicodeIsSpace) := by
  unfold List.rdropWhile
  rw [List.forall₂_reverse_iff]
  exact forall₂_dropWhile_isSpace tbl _ _ (List.forall₂_reverse_iff.2 h)

theorem forall₂_map_toUpper (tbl : Char → Char) (l l' : List Char)
    (h : List.Forall₂ (SameUpToCase tbl) l l') :
    l.map (unicodeToUpper tbl) = l'.map (unicodeToUpper tbl) := by
  induction h with
  | nil => rfl
  | @cons a b l l' hab _ ih =>
    rw [List.map_cons, List.map_cons, ih, sameUpToCase_toUpper tbl a b hab]

theorem rdropWhile_append_of_pos (p : Char → Bool) (l w : List Char) (hw : ∀ c ∈ w, p c = true) :
    (l ++ w).rdropWhile p = l.rdropWhile p := by
  unfold List.rdropWhile
  rw [List.reverse_append, List.dropWhile_append_of_pos]
  intro a ha
  exact hw a (List.mem_reverse.1 ha)

theorem trim_append_of_pos (p : Char → Bool) (l w : List Char) (hw : ∀ c ∈ w, p c = true) :
    ((l ++ w).dropWhile p).rdropWhile p = (l.dropWhile p).rdropWhile p := by
  rw [List.dropWhile_append]
  split
  · rename_i hempty
    have hnil : l.dropWhile p = [] := List.isEmpty_iff.1 hempty
    have hall : w.dropWhile p = [] := by
      rw [List.dropWhile_eq_nil_iff]
      exact hw
    rw [hnil, hall]
  · exact rdropWhile_append_of_pos p _ w hw

theorem TrimSpace_padded (w1 q w2 : String) (h1 : IsWhiteSpace w1) (h2 : IsWhiteSpace w2) :
    TrimSpace (w1 ++ q ++ w2) = TrimSpace q := by
  unfold TrimSpace
  congr 1
  rw [String.data_append, String.data_append, List.append_assoc,
    List.dropWhile_append_of_pos h1]
  exact trim_append_of_pos unicodeIsSpace q.data w2.data h2

theorem normalize_case_variant (tbl : Char → Char) (q q' : String)
    (h : DiffersOnlyInCase tbl q q') : normalize tbl q' = normalize tbl q := by
  unfold normalize ToUpper TrimSpace
  congr 1
  exact (forall₂_map_toUpper tbl _ _
    (forall₂_rdropWhile_isSpace tbl _ _ (forall₂_dropWhile_isSpace tbl _ _ h))).symm

/-- C5: when `q'` differs from `q` only in the case of its letters and `w1`,
`w2` are white space strings, the prefix check of each of the three operations
gives on `w1 ++ q' ++ w2` the verdict it gives on `q`; and the read check
accepts `  select * from t`. -/
theorem classification_invariant_under_case_and_padding (tbl : Char → Char)
    (q q' w1 w2 : String) (hcase : DiffersOnlyInCase tbl q q')
    (h1 : IsWhiteSpace w1) (h2 : IsWhiteSpace w2) :
    hasPrefix tbl (w1 ++ q' ++ w2) "SELECT" = hasPrefix tbl q "SELECT" ∧
    hasAnyPrefix tbl (w1 ++ q' ++ w2) ddlPrefixes = hasAnyPrefix tbl q ddlPrefixes ∧
    hasAnyPrefix tbl (w1 ++ q' ++ w2) dmlPrefixes = hasAnyPrefix tbl q dmlPrefixes ∧
    hasPrefix tbl "  select * from t" "SELECT" = true := by
  have hn : ToUpper tbl (TrimSpace (w1 ++ q' ++ w2)) = ToUpper tbl (TrimSpace q) := by
    rw [TrimSpace_padded w1 q' w2 h1 h2]
    exact normalize_case_variant tbl q q' hcase
  refine ⟨?_, ?_, ?_, rfl⟩
  · unfold hasPrefix
    rw [hn]
  · unfold hasAnyPrefix
    rw [hn]
  · unfold hasAnyPrefix
    rw [hn]

/-- C5 at a concrete input: `Insert into T` against ` \tiNSERT INTO t\n`. -/
theorem classification_invariant_under_case_and_padding_witness :
    DiffersOnlyInCase id "Insert into T" "iNSERT INTO t" ∧
    IsWhiteSpace " \t" ∧ IsWhiteSpace "\n" ∧
    (hasPrefix id (" \t" ++ "iNSERT INTO t" ++ "\n") "SELECT"
        = hasPrefix id "Insert into T" "SELECT" ∧
      hasAnyPrefix id (" \t" ++ "iNSERT INTO t" ++ "\n") ddlPrefixes
        = hasAnyPrefix id "Insert into T" ddlPrefixes ∧
      hasAnyPrefix id (" \t" ++ "iNSERT INTO t" ++ "\n") dmlPrefixes
        = hasAnyPrefix id "Insert into T" dmlPrefixes ∧
      hasPrefix id "  select * from t" "SELECT" = true) :=
  ⟨by decide, by decide, by decide,
    classification_invariant_under_case_and_padding id "Insert into T" "iNSERT INTO t"
      " \t" "\n" (by decide) (by decide) (by decide)⟩

end PostgresMcp
